import Mathlib

/-!
Shallow embedding of the tornado event-processing engine, covering the
retry layer (`tornado/engine/src/executor/retry.rs`), the rule validator
(`engine/matcher/src/validator/mod.rs`), the `contain` operator
(`engine/matcher/src/matcher/operator/contain.rs`), the foreach executor
(`executor/foreach/src/lib.rs`), the matcher actor reconfiguration
(`tornado/engine/src/actor/matcher.rs`) and the matcher evaluation
pipeline (modelled from the specification, because the matcher crate
body is not part of the sources at hand).
-/

namespace Tornado

/-- Recursive value model (`tornado_common_api::Value`):
null, bool, number, string, array, object.  Numbers are modelled as
integers and objects as association lists with unique keys. -/
inductive Value where
  | null : Value
  | bool (b : Bool) : Value
  | num (n : Int) : Value
  | str (s : String) : Value
  | arr (vs : List Value) : Value
  | obj (fields : List (String × Value)) : Value
deriving Repr, BEq

/-- Action payloads are maps from strings to values
(`tornado_common_api::Payload`), modelled as association lists. -/
abbrev Payload := List (String × Value)

/-- An action dispatched to executors (`tornado_common_api::Action`). -/
structure Action where
  id : String
  payload : Payload
deriving Repr, BEq

/-- Executor error type (`tornado_executor_common::ExecutorError`).
Modelled from the spec: the enum itself is not among the sources; §4.8
lists `MissingArgument | UnknownArgument | Configuration |
ActionExecution { can_retry, message, code, data } | Serde`.
The `data` field is omitted; it carries no behaviour used here. -/
inductive ExecutorError where
  | MissingArgumentError (message : String)
  | UnknownArgumentError (message : String)
  | ConfigurationError (message : String)
  | ActionExecutionError (message : String) (can_retry : Bool) (code : Option String)
  | SerdeError (message : String)
deriving Repr, BEq, DecidableEq

/-- Modulus of the `u32` machine integers used by the retry policies. -/
def u32Mod : Nat := 4294967296

/-- Retry policy of a `RetryStrategy` (`retry.rs`). -/
inductive RetryPolicy where
  | None : RetryPolicy
  | MaxRetries (retries : Nat) : RetryPolicy
  | Infinite : RetryPolicy
deriving Repr, BEq, DecidableEq

/-- `RetryPolicy::should_retry` from `retry.rs`.  `failed_attempts` and
`retries` are `u32` values; the addition `retries + 1` wraps at `2^32`
(release-profile semantics of the source). -/
def RetryPolicy.should_retry (p : RetryPolicy) (failed_attempts : Nat) : Bool :=
  if failed_attempts = 0 then
    true
  else
    match p with
    | RetryPolicy.None => false
    | RetryPolicy.Infinite => true
    | RetryPolicy.MaxRetries retries => (retries + 1) % u32Mod > failed_attempts

/-- Backoff policy of a `RetryStrategy` (`retry.rs`). -/
inductive BackoffPolicy where
  | None : BackoffPolicy
  | Fixed (ms : Nat) : BackoffPolicy
  | Variable (ms : List Nat) : BackoffPolicy
deriving Repr, BEq, DecidableEq

/-- `BackoffPolicy::should_wait` from `retry.rs`.  A `Duration` is
modelled by its length in milliseconds. -/
def BackoffPolicy.should_wait (p : BackoffPolicy) (failed_attempts : Nat) : Option Nat :=
  if failed_attempts = 0 then
    none
  else
    match p with
    | BackoffPolicy.None => none
    | BackoffPolicy.Fixed ms => if ms > 0 then some ms else none
    | BackoffPolicy.Variable ms =>
      let index := failed_attempts - 1
      let option_wait_ms := if ms.length > index then ms.get? index else ms.getLast?
      match option_wait_ms with
      | some wait_ms => if wait_ms > 0 then some wait_ms else none
      | none => none

/-- Strategy applied in case of an action execution failure (`retry.rs`). -/
structure RetryStrategy where
  retry_policy : RetryPolicy
  backoff_policy : BackoffPolicy
deriving Repr, BEq, DecidableEq

/-- `RetryStrategy::should_retry`: whether a retry attempt should be
performed, and an optional backoff time. -/
def RetryStrategy.should_retry (s : RetryStrategy) (failed_attempts : Nat) :
    Bool × Option Nat :=
  (s.retry_policy.should_retry failed_attempts,
   s.backoff_policy.should_wait failed_attempts)

/-- The message handled by the `RetryActor` (`ActionMessage`). -/
structure ActionMessage where
  action : Action
  failed_attempts : Nat
deriving Repr, BEq

/-- The retry loop spawned by `RetryActor::handle` (`retry.rs`).
`responses n` is the executor's answer to the n-th send of the message:
`some (Except.ok ())` for a successful execution, `some (Except.error e)`
for a failed one, and `none` for a `MailboxError` of the send itself.
`fuel` bounds the number of loop iterations (the `Infinite` policy never
stops on its own); the result counts the sends performed. -/
def retryLoop (strategy : RetryStrategy)
    (responses : Nat → Option (Except ExecutorError Unit)) :
    Nat → Nat → Nat → Nat
  | 0, _, attempts => attempts
  | fuel + 1, failed_attempts, attempts =>
    match responses attempts with
    | some (Except.error _) =>
      let failed' := (failed_attempts + 1) % u32Mod
      if (strategy.should_retry failed').1 then
        retryLoop strategy responses fuel failed' (attempts + 1)
      else
        attempts + 1
    | some (Except.ok _) => attempts + 1
    | none => attempts + 1

/-- `RetryActor::handle` (`retry.rs`): it spawns the retry loop and
returns `Ok(())` to the sender unconditionally.  The pair holds the
handler's own result and the number of sends the spawned loop performs. -/
def RetryActor.handle (strategy : RetryStrategy)
    (responses : Nat → Option (Except ExecutorError Unit))
    (msg : ActionMessage) (fuel : Nat) : Except ExecutorError Unit × Nat :=
  (Except.ok (), retryLoop strategy responses fuel msg.failed_attempts 0)

/-- Upper bound on the attempts performed by the retry loop under a
`MaxRetries` policy, for an arbitrary executor. -/
theorem retryLoop_maxRetries_le (r : Nat) (bp : BackoffPolicy)
    (responses : Nat → Option (Except ExecutorError Unit)) (hr : r + 1 < u32Mod) :
    ∀ fuel failed attempts, failed ≤ r →
      retryLoop ⟨RetryPolicy.MaxRetries r, bp⟩ responses fuel failed attempts ≤
        attempts + (r + 1 - failed) := by
  intro fuel
  induction fuel with
  | zero =>
    intro failed attempts _
    simp only [retryLoop]
    omega
  | succ n ih =>
    intro failed attempts h
    cases hresp : responses attempts with
    | none =>
      simp only [retryLoop, hresp]
      omega
    | some res =>
      cases res with
      | ok u =>
        simp only [retryLoop, hresp]
        omega
      | error e =>
        have hmod : (failed + 1) % u32Mod = failed + 1 := Nat.mod_eq_of_lt (by omega)
        have hmod' : (r + 1) % u32Mod = r + 1 := Nat.mod_eq_of_lt hr
        simp only [retryLoop, hresp, RetryStrategy.should_retry,
          RetryPolicy.should_retry, hmod, hmod']
        rw [if_neg (show ¬(failed + 1 = 0) by omega)]
        split
        · rename_i hcond
          simp only [decide_eq_true_eq] at hcond
          have := ih (failed + 1) (attempts + 1) (by omega)
          omega
        · omega

/-- With `MaxRetries { retries: 0 }` the loop performs exactly one
attempt, whatever the executor answers. -/
theorem retryLoop_maxRetries_zero (bp : BackoffPolicy)
    (responses : Nat → Option (Except ExecutorError Unit)) (fuel : Nat) :
    retryLoop ⟨RetryPolicy.MaxRetries 0, bp⟩ responses (fuel + 1) 0 0 = 1 := by
  cases hresp : responses 0 with
  | none => simp [retryLoop, hresp]
  | some res =>
    cases res with
    | ok u => simp [retryLoop, hresp]
    | error e =>
      simp [retryLoop, hresp, RetryStrategy.should_retry, RetryPolicy.should_retry, u32Mod]

/-- C2 counterexample: with `MaxRetries { retries: u32::MAX }` the `u32`
increment `retries + 1` wraps to `0`, so `should_retry 1` is `false`
although `1 ≤ retries`; the claimed equivalence
`should_retry f = true ↔ f ≤ retries` fails at this input. -/
theorem should_retry_wrap_counterexample :
    RetryPolicy.should_retry (RetryPolicy.MaxRetries 4294967295) 1 = false ∧
    (1 : Nat) ≤ 4294967295 := by
  constructor
  · simp [RetryPolicy.should_retry, u32Mod]
  · omega

/-- C2 (amended): `should_retry(f)` is `true` iff `f = 0` or the policy
allows another attempt: always for `Infinite`, never for `None` with
`f ≥ 1`, and for `MaxRetries { retries: r }` with `r + 1 < 2^32`
exactly when `f ≤ r`; consequently under `MaxRetries r` an action is
attempted at most `r + 1` times, and `MaxRetries { retries: 0 }` yields
exactly one attempt. -/
theorem retry_policy_should_retry_spec :
    (∀ p : RetryPolicy, p.should_retry 0 = true)
  ∧ (∀ f : Nat, 1 ≤ f → RetryPolicy.None.should_retry f = false)
  ∧ (∀ f : Nat, RetryPolicy.Infinite.should_retry f = true)
  ∧ (∀ r f : Nat, r + 1 < u32Mod →
      ((RetryPolicy.MaxRetries r).should_retry f = true ↔ f ≤ r))
  ∧ (∀ (r : Nat) (bp : BackoffPolicy)
       (responses : Nat → Option (Except ExecutorError Unit)) (fuel : Nat),
      r + 1 < u32Mod →
      retryLoop ⟨RetryPolicy.MaxRetries r, bp⟩ responses fuel 0 0 ≤ r + 1)
  ∧ (∀ (bp : BackoffPolicy)
       (responses : Nat → Option (Except ExecutorError Unit)) (fuel : Nat),
      retryLoop ⟨RetryPolicy.MaxRetries 0, bp⟩ responses (fuel + 1) 0 0 = 1) := by
  refine ⟨?_, ?_, ?_, ?_, ?_, ?_⟩
  · intro p
    simp [RetryPolicy.should_retry]
  · intro f hf
    simp [RetryPolicy.should_retry]
    omega
  · intro f
    by_cases h : f = 0 <;> simp [RetryPolicy.should_retry, h]
  · intro r f hr
    have hmod : (r + 1) % u32Mod = r + 1 := Nat.mod_eq_of_lt hr
    by_cases h : f = 0
    · simp [RetryPolicy.should_retry, h]
    · simp [RetryPolicy.should_retry, h, hmod]
      omega
  · intro r bp responses fuel hr
    have := retryLoop_maxRetries_le r bp responses hr fuel 0 0 (Nat.zero_le r)
    omega
  · intro bp responses fuel
    exact retryLoop_maxRetries_zero bp responses fuel

/-- C2 witness: concrete instances of the amended statement. -/
theorem retry_policy_should_retry_spec_witness :
    ((RetryPolicy.MaxRetries 3).should_retry 2 = true ↔ 2 ≤ 3)
  ∧ retryLoop ⟨RetryPolicy.MaxRetries 2, BackoffPolicy.None⟩
      (fun _ => some (Except.error (ExecutorError.SerdeError "e"))) 10 0 0 ≤ 3
  ∧ RetryPolicy.None.should_retry 1 = false := by
  refine ⟨?_, ?_, ?_⟩
  · exact retry_policy_should_retry_spec.2.2.2.1 3 2 (by norm_num [u32Mod])
  · exact retry_policy_should_retry_spec.2.2.2.2.1 2 BackoffPolicy.None _ 10
      (by norm_num [u32Mod])
  · exact retry_policy_should_retry_spec.2.1 1 (by norm_num)

/-- Spec reading of the `Variable` backoff policy (claim C3): after the
i-th failure wait `t_i` ms when `i ≤ k`, and `t_k` ms when `i > k`; a
zero element means no wait for that index, and an empty vector means no
wait for every `i`; no wait before the first attempt. -/
def variableWaitSpec (ts : List Nat) (i : Nat) : Option Nat :=
  if i = 0 then none
  else
    let t := if i ≤ ts.length then ts.getD (i - 1) 0 else ts.getLast?.getD 0
    if t = 0 then none else some t

/-- C3: `should_wait` returns no wait at `failed_attempts = 0` for every
policy, and on `Variable { ms }` it agrees with the spec description
`variableWaitSpec` at every index. -/
theorem backoff_should_wait_spec :
    (∀ p : BackoffPolicy, p.should_wait 0 = none)
  ∧ (∀ (ts : List Nat) (i : Nat),
      (BackoffPolicy.Variable ts).should_wait i = variableWaitSpec ts i) := by
  constructor
  · intro p
    simp [BackoffPolicy.should_wait]
  · intro ts i
    by_cases h0 : i = 0
    · simp [BackoffPolicy.should_wait, variableWaitSpec, h0]
    · simp only [BackoffPolicy.should_wait, variableWaitSpec, h0, if_false]
      by_cases hle : i ≤ ts.length
      · have hlt : i - 1 < ts.length := by omega
        have hget : ts.get? (i - 1) = some (ts.get ⟨i - 1, hlt⟩) := List.get?_eq_get hlt
        have hgt : ts.length > i - 1 := hlt
        simp only [hgt, if_true, hle, hget, List.getD, hget]
        have hiff : ∀ x : Nat, (if 0 < x then some x else none) =
            if x = 0 then none else some x := by
          intro x
          rcases Nat.eq_zero_or_pos x with hz | hp
          · simp [hz]
          · simp [Nat.pos_iff_ne_zero.mp hp, hp]
        exact hiff _
      · have hnlt : ¬ ts.length > i - 1 := by omega
        simp only [hnlt, if_false, hle]
        cases hl : ts.getLast? with
        | none => simp
        | some t =>
          rcases Nat.eq_zero_or_pos t with hz | hp
          · simp [hz]
          · simp [Nat.pos_iff_ne_zero.mp hp, hp]

/-- Shape of an executor response: success, failure, or mailbox error,
forgetting the error payload (and in particular its `can_retry` flag). -/
def responseShape : Option (Except ExecutorError Unit) → Option Bool
  | none => none
  | some (Except.ok _) => some true
  | some (Except.error _) => some false

/-- The retry loop only looks at the success/failure shape of the
executor responses, never at the error payload. -/
theorem retryLoop_shape_congr (strategy : RetryStrategy)
    (r1 r2 : Nat → Option (Except ExecutorError Unit))
    (h : ∀ n, responseShape (r1 n) = responseShape (r2 n)) :
    ∀ fuel failed attempts,
      retryLoop strategy r1 fuel failed attempts =
        retryLoop strategy r2 fuel failed attempts := by
  intro fuel
  induction fuel with
  | zero =>
    intro failed attempts
    simp [retryLoop]
  | succ n ih =>
    intro failed attempts
    have hsh := h attempts
    cases h1 : r1 attempts with
    | none =>
      cases h2 : r2 attempts with
      | none => simp only [retryLoop, h1, h2]
      | some res2 =>
        rw [h1, h2] at hsh
        cases res2 <;> simp [responseShape] at hsh
    | some res1 =>
      cases h2 : r2 attempts with
      | none =>
        rw [h1, h2] at hsh
        cases res1 <;> simp [responseShape] at hsh
      | some res2 =>
        rw [h1, h2] at hsh
        cases res1 with
        | ok u =>
          cases res2 with
          | ok v => simp only [retryLoop, h1, h2]
          | error e => simp [responseShape] at hsh
        | error e =>
          cases res2 with
          | ok v => simp [responseShape] at hsh
          | error e' =>
            simp only [retryLoop, h1, h2]
            split
            · exact ih _ _
            · rfl

/-- Always-failing executor whose error carries `can_retry = false`. -/
def fatalResponses : Nat → Option (Except ExecutorError Unit) :=
  fun _ => some (Except.error (ExecutorError.ActionExecutionError "failure" false none))

/-- C4 counterexample: the executor fails with an error marked
`can_retry = false`, yet under `RetryPolicy::Infinite` the loop performs
a second attempt, and the handler still returns `Ok` (the error never
surfaces).  The retry is not short-circuited. -/
theorem retry_fatal_error_not_short_circuited :
    fatalResponses 0 =
      some (Except.error (ExecutorError.ActionExecutionError "failure" false none))
  ∧ retryLoop ⟨RetryPolicy.Infinite, BackoffPolicy.None⟩ fatalResponses 2 0 0 = 2
  ∧ (RetryActor.handle ⟨RetryPolicy.Infinite, BackoffPolicy.None⟩ fatalResponses
      ⟨⟨"act", []⟩, 0⟩ 2).1 = Except.ok () := by
  refine ⟨rfl, ?_, rfl⟩
  rfl

/-- C4 (amended): the retry loop never consults the `can_retry` flag (or
any other part of the error payload): after a failed attempt, whether a
further attempt is made depends only on the retry strategy and the
failed-attempt counter, and `RetryActor::handle` returns `Ok` whatever
happens, so no error surfaces to the sender. -/
theorem retry_loop_error_kind_irrelevant :
    (∀ (strategy : RetryStrategy) (r1 r2 : Nat → Option (Except ExecutorError Unit)),
      (∀ n, responseShape (r1 n) = responseShape (r2 n)) →
      ∀ fuel failed attempts,
        retryLoop strategy r1 fuel failed attempts =
          retryLoop strategy r2 fuel failed attempts)
  ∧ (∀ (strategy : RetryStrategy)
       (responses : Nat → Option (Except ExecutorError Unit))
       (msg : ActionMessage) (fuel : Nat),
      (RetryActor.handle strategy responses msg fuel).1 = Except.ok ()) :=
  ⟨retryLoop_shape_congr, fun _ _ _ _ => rfl⟩

/-- C4 witness: the loop treats a `can_retry = false` error exactly like
any other error with the same failure shape. -/
theorem retry_loop_error_kind_irrelevant_witness :
    retryLoop ⟨RetryPolicy.MaxRetries 1, BackoffPolicy.None⟩ fatalResponses 5 0 0 =
      retryLoop ⟨RetryPolicy.MaxRetries 1, BackoffPolicy.None⟩
        (fun _ => some (Except.error (ExecutorError.SerdeError "e"))) 5 0 0 :=
  retry_loop_error_kind_irrelevant.1 ⟨RetryPolicy.MaxRetries 1, BackoffPolicy.None⟩
    fatalResponses (fun _ => some (Except.error (ExecutorError.SerdeError "e")))
    (fun _ => rfl) 5 0 0

/-- Always-failing executor with a retryable error kind. -/
def alwaysFailResponses : Nat → Option (Except ExecutorError Unit) :=
  fun _ => some (Except.error (ExecutorError.SerdeError "fail"))

/-- C9: `RetryActor::handle` returns `Ok` for every message, strategy and
executor behaviour (no executor failure is ever propagated back to the
sender), and as soon as `should_retry` answers `false` after a failed
attempt the loop stops with that attempt: the action is dropped. -/
theorem retry_handle_never_propagates :
    (∀ (strategy : RetryStrategy)
       (responses : Nat → Option (Except ExecutorError Unit))
       (msg : ActionMessage) (fuel : Nat),
      (RetryActor.handle strategy responses msg fuel).1 = Except.ok ())
  ∧ (∀ (strategy : RetryStrategy)
       (responses : Nat → Option (Except ExecutorError Unit))
       (fuel failed attempts : Nat) (e : ExecutorError),
      responses attempts = some (Except.error e) →
      (strategy.should_retry ((failed + 1) % u32Mod)).1 = false →
      retryLoop strategy responses (fuel + 1) failed attempts = attempts + 1) := by
  constructor
  · intro _ _ _ _
    rfl
  · intro strategy responses fuel failed attempts e hresp hstop
    simp only [retryLoop, hresp, hstop]
    simp

/-- C9 witness: with `RetryPolicy::None` the first failure is final, the
loop stops after one attempt and the handler still answers `Ok`. -/
theorem retry_handle_never_propagates_witness :
    (RetryActor.handle ⟨RetryPolicy.None, BackoffPolicy.None⟩ alwaysFailResponses
      ⟨⟨"act", []⟩, 0⟩ 5).1 = Except.ok ()
  ∧ retryLoop ⟨RetryPolicy.None, BackoffPolicy.None⟩ alwaysFailResponses (4 + 1) 0 0 = 0 + 1 := by
  constructor
  · exact retry_handle_never_propagates.1 _ _ _ _
  · exact retry_handle_never_propagates.2 ⟨RetryPolicy.None, BackoffPolicy.None⟩
      alwaysFailResponses 4 0 0 (ExecutorError.SerdeError "fail") rfl rfl

/-- A matcher rule, restricted to the fields inspected by the validator
(`config::rule::Rule`): its name, the `active` flag, the keys of
`constraint.with` and the ids of its actions. -/
structure Rule where
  name : String
  active : Bool
  with_var_names : List String
  action_ids : List String
deriving Repr, BEq, DecidableEq

/-- Validation errors (`MatcherError`), restricted to the variants the
rule validator produces. -/
inductive MatcherError where
  | NotUniqueRuleNameError (name : String)
  | NotValidIdOrNameError (id : String)
deriving Repr, BEq, DecidableEq

/-- Modelled from the spec: the `IdValidator` module is not among the
sources; §4.5/§6.1 require every name to match
`^[a-zA-Z_][a-zA-Z0-9_]*$` (ASCII letters, digits and underscore,
not starting with a digit, non-empty). -/
def isValidId (s : String) : Bool :=
  match s.toList with
  | [] => false
  | c :: cs => (c.isAlpha || c = '_') && cs.all (fun d => d.isAlphanum || d = '_')

/-- Id check shared by rule names, extracted-variable names and action
ids (`IdValidator`, modelled from the spec). -/
def checkId (s : String) : Except MatcherError Unit :=
  if isValidId s then Except.ok () else Except.error (MatcherError.NotValidIdOrNameError s)

/-- `MatcherConfigValidator::validate_rule`: a rule must have a valid
name, valid extracted-variable names and valid action ids. -/
def validate_rule (r : Rule) : Except MatcherError Unit := do
  checkId r.name
  r.with_var_names.forM checkId
  r.action_ids.forM checkId

/-- `MatcherConfigValidator::check_unique_name`: fails with
`NotUniqueRuleNameError` when the name was already seen, otherwise
records it. -/
def check_unique_name (rule_names : List String) (name : String) :
    Except MatcherError (List String) :=
  if rule_names.contains name then
    Except.error (MatcherError.NotUniqueRuleNameError name)
  else
    Except.ok (rule_names ++ [name])

/-- Loop body of `MatcherConfigValidator::validate_rules`: walk the
rules carrying the accumulated names of the active rules seen so far;
inactive rules are skipped entirely. -/
def validate_rules_go : List Rule → List String → Except MatcherError Unit
  | [], _ => Except.ok ()
  | r :: rest, rule_names =>
    if r.active then do
      validate_rule r
      let rule_names' ← check_unique_name rule_names r.name
      validate_rules_go rest rule_names'
    else
      validate_rules_go rest rule_names

/-- `MatcherConfigValidator::validate_rules`. -/
def validate_rules (rules : List Rule) : Except MatcherError Unit :=
  validate_rules_go rules []

/-- Names of the active rules of a list, in order. -/
def activeNames (rules : List Rule) : List String :=
  (rules.filter (fun r => r.active)).map (fun r => r.name)

theorem activeNames_cons_pos {r : Rule} {rest : List Rule} (h : r.active = true) :
    activeNames (r :: rest) = r.name :: activeNames rest := by
  simp [activeNames, List.filter_cons, h]

theorem activeNames_cons_neg {r : Rule} {rest : List Rule} (h : ¬ r.active = true) :
    activeNames (r :: rest) = activeNames rest := by
  simp [activeNames, List.filter_cons, h]

/-- The validator walk only looks at the active rules: filtering the
inactive ones out does not change its result, whatever names were
already accumulated. -/
theorem validate_rules_go_filter (rules : List Rule) :
    ∀ names, validate_rules_go rules names =
      validate_rules_go (rules.filter (fun r => r.active)) names := by
  induction rules with
  | nil => intro names; rfl
  | cons r rest ih =>
    intro names
    by_cases h : r.active
    · rw [List.filter_cons, if_pos h]
      cases hv : validate_rule r with
      | error e =>
        simp [validate_rules_go, h, hv, Bind.bind, Except.bind]
      | ok u =>
        cases hc : check_unique_name names r.name with
        | error e =>
          simp [validate_rules_go, h, hv, hc, Bind.bind, Except.bind]
        | ok names' =>
          simp [validate_rules_go, h, hv, hc, Bind.bind, Except.bind, ih]
    · rw [List.filter_cons, if_neg h]
      simp [validate_rules_go, h, ih]

/-- C6: disabling a rule is equivalent to removing it, for the rule
validator: `validate_rules` returns the same result on a list of rules
and on the sub-list of its active rules. -/
theorem validate_rules_ignores_inactive (rules : List Rule) :
    validate_rules rules = validate_rules (rules.filter (fun r => r.active)) :=
  validate_rules_go_filter rules []

/-- Successful validation implies that the active-rule names are
pairwise distinct and disjoint from the accumulated ones. -/
theorem validate_rules_go_ok_nodup :
    ∀ (rules : List Rule) (names : List String),
      validate_rules_go rules names = Except.ok () →
      (activeNames rules).Nodup ∧ ∀ n ∈ activeNames rules, n ∉ names := by
  intro rules
  induction rules with
  | nil =>
    intro names _
    simp [activeNames]
  | cons r rest ih =>
    intro names h
    by_cases ha : r.active
    · simp only [validate_rules_go, ha, if_true] at h
      cases hv : validate_rule r with
      | error e =>
        rw [hv] at h
        simp [Bind.bind, Except.bind] at h
      | ok u =>
        rw [hv] at h
        simp only [Bind.bind, Except.bind] at h
        by_cases hmem : r.name ∈ names
        · simp [check_unique_name, hmem] at h
        · simp only [check_unique_name, List.elem_iff,
            hmem, if_false] at h
          obtain ⟨hnodup, hdisj⟩ := ih (names ++ [r.name]) h
          constructor
          · rw [activeNames_cons_pos ha]
            refine List.Nodup.cons ?_ hnodup
            intro hmem'
            exact absurd (List.mem_append_right names (List.mem_singleton_self r.name))
              (hdisj r.name hmem')
          · intro n hn
            rw [activeNames_cons_pos ha] at hn
            rcases List.mem_cons.mp hn with rfl | hn'
            · exact hmem
            · intro hmemn
              exact hdisj n hn' (List.mem_append_left _ hmemn)
    · simp only [validate_rules_go, ha, if_false] at h
      obtain ⟨hnodup, hdisj⟩ := ih names h
      rw [activeNames_cons_neg ha]
      exact ⟨hnodup, hdisj⟩

/-- When every active rule passes its individual validation and the
active names contain a duplicate (relative to the accumulated names),
the walk fails with `NotUniqueRuleNameError` carrying a duplicated
name. -/
theorem validate_rules_go_dup_error :
    ∀ (rules : List Rule) (names : List String),
      names.Nodup →
      (∀ r ∈ rules, r.active = true → validate_rule r = Except.ok ()) →
      ¬ (names ++ activeNames rules).Nodup →
      ∃ n, validate_rules_go rules names =
          Except.error (MatcherError.NotUniqueRuleNameError n)
        ∧ 2 ≤ (names ++ activeNames rules).count n := by
  intro rules
  induction rules with
  | nil =>
    intro names hnames _ hdup
    rw [activeNames] at hdup
    simp at hdup
    exact absurd hnames hdup
  | cons r rest ih =>
    intro names hnames hval hdup
    by_cases ha : r.active
    · have hv : validate_rule r = Except.ok () :=
        hval r (List.mem_cons_self r rest) ha
      simp only [validate_rules_go, ha, if_true]
      rw [hv]
      simp only [Bind.bind, Except.bind]
      by_cases hmem : r.name ∈ names
      · refine ⟨r.name, ?_, ?_⟩
        · simp [check_unique_name, hmem]
        · have h1 : 1 ≤ names.count r.name := List.count_pos_iff.mpr hmem
          rw [activeNames_cons_pos ha, List.count_append, List.count_cons_self]
          omega
      · simp only [check_unique_name, List.elem_iff,
          hmem, if_false]
        have hnames' : (names ++ [r.name]).Nodup := by
          rw [List.nodup_append]
          exact ⟨hnames, List.nodup_singleton r.name, by
            intro a hma hmb
            rw [List.mem_singleton] at hmb
            exact hmem (hmb ▸ hma)⟩
        have hlist : names ++ activeNames (r :: rest) =
            (names ++ [r.name]) ++ activeNames rest := by
          rw [activeNames_cons_pos ha, List.append_assoc]
          rfl
        rw [hlist] at hdup
        obtain ⟨n, herr, hcount⟩ := ih (names ++ [r.name]) hnames'
          (fun r' hr' => hval r' (List.mem_cons_of_mem r hr')) hdup
        refine ⟨n, herr, ?_⟩
        rw [hlist]
        exact hcount
    · simp only [validate_rules_go, ha, if_false]
      rw [activeNames_cons_neg ha] at hdup ⊢
      exact ih names hnames (fun r' hr' => hval r' (List.mem_cons_of_mem r hr')) hdup

/-- Two rules sharing the name `a`, the second one disabled. -/
def dupActiveRule : Rule :=
  { name := "a", active := true, with_var_names := [], action_ids := [] }

/-- The disabled duplicate of `dupActiveRule`. -/
def dupInactiveRule : Rule :=
  { name := "a", active := false, with_var_names := [], action_ids := [] }

/-- C5 counterexample: two rules of the same ruleset share the name
`"a"`, yet validation succeeds, because the duplicate is inactive and
`validate_rules` skips inactive rules entirely; the successfully
validated list does not have unique rule names. -/
theorem validate_rules_shared_name_counterexample :
    dupActiveRule.name = dupInactiveRule.name
  ∧ validate_rules [dupActiveRule, dupInactiveRule] = Except.ok ()
  ∧ ¬ (([dupActiveRule, dupInactiveRule].map (fun r => r.name)).Nodup) := by
  refine ⟨rfl, rfl, ?_⟩
  decide

/-- C5 (amended): among the ACTIVE rules of a ruleset, names are unique
in any list accepted by `validate_rules`; and when every active rule
passes its individual validation, a duplicate name among the active
rules makes `validate_rules` fail with `NotUniqueRuleNameError` carrying
a name that occurs at least twice among the active rules. -/
theorem validate_rules_unique_active_names :
    (∀ rules : List Rule, validate_rules rules = Except.ok () →
      (activeNames rules).Nodup)
  ∧ (∀ rules : List Rule,
      (∀ r ∈ rules, r.active = true → validate_rule r = Except.ok ()) →
      ¬ (activeNames rules).Nodup →
      ∃ n, validate_rules rules = Except.error (MatcherError.NotUniqueRuleNameError n)
        ∧ 2 ≤ (activeNames rules).count n) := by
  constructor
  · intro rules h
    exact (validate_rules_go_ok_nodup rules [] h).1
  · intro rules hval hdup
    have h := validate_rules_go_dup_error rules [] List.nodup_nil hval
      (by simpa using hdup)
    simpa using h

/-- C5 witness: two active, individually valid rules named `"b"` make
validation fail with `NotUniqueRuleNameError "b"`. -/
theorem validate_rules_unique_active_names_witness :
    ∃ n, validate_rules
        [⟨"b", true, [], []⟩, ⟨"b", true, [], []⟩] =
          Except.error (MatcherError.NotUniqueRuleNameError n)
      ∧ 2 ≤ (activeNames [⟨"b", true, [], []⟩, ⟨"b", true, [], []⟩]).count n :=
  validate_rules_unique_active_names.2
    [⟨"b", true, [], []⟩, ⟨"b", true, [], []⟩]
    (by
      intro r hr _
      simp only [List.mem_cons, List.not_mem_nil, or_false] at hr
      rcases hr with rfl | rfl <;> rfl)
    (by decide)

/-- State held by the `MatcherActor` that the `ReconfigureMessage`
handler may update: the stored configuration and the compiled matcher
(`actor/matcher.rs`).  The configuration and matcher types are left
abstract. -/
structure MatcherActorState (C M : Type) where
  matcher_config : C
  matcher : M
deriving Repr, BEq, DecidableEq

/-- Handler of `ReconfigureMessage` (`actor/matcher.rs`): re-read the
configuration through the config manager (`get_config`), compile it
(`Matcher::build`), and only on success of both store the new pair; on
any error return it and leave the state untouched.  `get_config` and
`build` model the collaborator calls. -/
def MatcherActor.reconfigure {E C M : Type} (get_config : Except E C)
    (build : C → Except E M) (s : MatcherActorState C M) :
    MatcherActorState C M × Except E C :=
  match (do
      let matcher_config ← get_config
      let matcher ← build matcher_config
      pure (matcher, matcher_config) : Except E (M × C)) with
  | Except.ok (matcher, matcher_config) =>
    (⟨matcher_config, matcher⟩, Except.ok matcher_config)
  | Except.error err => (s, Except.error err)

/-- C7: reconfiguration replaces the stored configuration and matcher
only when reading and compiling both succeed; on any error the handler
returns that error and the actor state is unchanged, so events continue
to be matched against the old configuration and matcher. -/
theorem matcher_actor_reconfigure_spec {E C M : Type} (get_config : Except E C)
    (build : C → Except E M) (s : MatcherActorState C M) :
    (∀ e : E, (MatcherActor.reconfigure get_config build s).2 = Except.error e →
      (MatcherActor.reconfigure get_config build s).1 = s)
  ∧ (∀ cfg : C, (MatcherActor.reconfigure get_config build s).2 = Except.ok cfg →
      get_config = Except.ok cfg
      ∧ ∃ m : M, build cfg = Except.ok m
        ∧ (MatcherActor.reconfigure get_config build s).1 = ⟨cfg, m⟩)
  ∧ (∀ e : E, get_config = Except.error e →
      (MatcherActor.reconfigure get_config build s).1 = s
      ∧ (MatcherActor.reconfigure get_config build s).2 = Except.error e)
  ∧ (∀ (cfg : C) (e : E), get_config = Except.ok cfg → build cfg = Except.error e →
      (MatcherActor.reconfigure get_config build s).1 = s
      ∧ (MatcherActor.reconfigure get_config build s).2 = Except.error e) := by
  cases hg : get_config with
  | error e0 =>
    refine ⟨?_, ?_, ?_, ?_⟩
    · intro e _
      simp [MatcherActor.reconfigure, hg, Bind.bind, Except.bind]
    · intro cfg hok
      simp [MatcherActor.reconfigure, hg, Bind.bind, Except.bind] at hok
    · intro e he
      injection he with h
      subst h
      constructor <;> simp [MatcherActor.reconfigure, hg, Bind.bind, Except.bind]
    · intro cfg e hok
      simp at hok
  | ok cfg0 =>
    cases hb : build cfg0 with
    | error e0 =>
      refine ⟨?_, ?_, ?_, ?_⟩
      · intro e _
        simp [MatcherActor.reconfigure, hg, hb, Bind.bind, Except.bind]
      · intro cfg hok
        simp [MatcherActor.reconfigure, hg, hb, Bind.bind, Except.bind, Pure.pure,
          Except.pure] at hok
      · intro e he
        simp at he
      · intro cfg e hok hbe
        injection hok with h
        subst h
        rw [hb] at hbe
        injection hbe with h2
        subst h2
        constructor <;> simp [MatcherActor.reconfigure, hg, hb, Bind.bind, Except.bind]
    | ok m0 =>
      refine ⟨?_, ?_, ?_, ?_⟩
      · intro e he
        simp [MatcherActor.reconfigure, hg, hb, Bind.bind, Except.bind, Pure.pure,
          Except.pure] at he
      · intro cfg hok
        simp only [MatcherActor.reconfigure, hg, hb, Bind.bind, Except.bind, Pure.pure,
          Except.pure, Except.ok.injEq] at hok ⊢
        subst hok
        exact ⟨rfl, m0, hb, rfl⟩
      · intro e he
        simp at he
      · intro cfg e hok hbe
        injection hok with h
        subst h
        rw [hb] at hbe
        simp at hbe

/-- C7 witness: a failing compile leaves the state untouched and a
successful read-and-compile swaps it. -/
theorem matcher_actor_reconfigure_spec_witness :
    (MatcherActor.reconfigure (E := String) (Except.ok 7)
        (fun _ => Except.error "boom") (⟨1, 2⟩ : MatcherActorState Nat Nat)).1 =
      (⟨1, 2⟩ : MatcherActorState Nat Nat)
  ∧ (MatcherActor.reconfigure (E := String) (Except.ok 7)
        (fun c => Except.ok (c + 1)) (⟨1, 2⟩ : MatcherActorState Nat Nat)).1 =
      (⟨7, 8⟩ : MatcherActorState Nat Nat) := by
  constructor
  · exact ((matcher_actor_reconfigure_spec (E := String) (Except.ok 7)
      (fun _ => Except.error "boom") (⟨1, 2⟩ : MatcherActorState Nat Nat)).2.2.2 7 "boom"
      rfl rfl).1
  · have h := (matcher_actor_reconfigure_spec (E := String) (Except.ok 7)
      (fun c => Except.ok (c + 1)) (⟨1, 2⟩ : MatcherActorState Nat Nat)).2.1 7 rfl
    obtain ⟨-, m, hm, hst⟩ := h
    cases hm
    exact hst

/-- Modelled from the spec: `tornado_common_api::to_option_str` is not
among the sources; it projects an optionally present value to a string
slice exactly when the value is a text value (§4.2: both sides of
`Contains` must resolve to strings). -/
def to_option_str : Option Value → Option String
  | some (Value.str s) => some s
  | _ => none

/-- Whether `s` occurs as a contiguous sub-sequence of `t`. -/
def listContainsSub (t s : List Char) : Bool :=
  match t with
  | [] => s.isEmpty
  | _ :: rest => s.isPrefixOf t || listContainsSub rest s

/-- Embedding of Rust `str::contains`: the second string occurs as a
contiguous substring of the first. -/
def strContains (text substring : String) : Bool :=
  listContainsSub text.toList substring.toList

/-- The `contain` operator (`matcher/operator/contain.rs`): two
accessors, for the text and for the substring.  Accessors are modelled
as functions from the processed event (of abstract type `α`) to an
optional value. -/
structure Contain (α : Type) where
  text : α → Option Value
  substring : α → Option Value

/-- `Contain::evaluate` (`contain.rs`): resolve the text accessor,
require a string, resolve the substring accessor, require a string, and
test for substring containment; any failure yields `false`. -/
def Contain.evaluate {α : Type} (c : Contain α) (event : α) : Bool :=
  match to_option_str (c.text event) with
  | some text =>
    match to_option_str (c.substring event) with
    | some substring => strContains text substring
    | none => false
  | none => false

/-- C8: `Contain::evaluate` is `true` iff both accessors resolve to
string values and the text contains the substring; whenever either
accessor yields no value or a non-string value the result is `false`
(and evaluation is total, hence never fails). -/
theorem contain_evaluate_spec {α : Type} (c : Contain α) (event : α) :
    (c.evaluate event = true ↔
      ∃ text substring,
        to_option_str (c.text event) = some text
        ∧ to_option_str (c.substring event) = some substring
        ∧ strContains text substring = true)
  ∧ (to_option_str (c.text event) = none → c.evaluate event = false)
  ∧ (to_option_str (c.substring event) = none → c.evaluate event = false) := by
  refine ⟨?_, ?_, ?_⟩
  · constructor
    · intro h
      cases ht : to_option_str (c.text event) with
      | none => rw [Contain.evaluate, ht] at h; cases h
      | some text =>
        cases hs : to_option_str (c.substring event) with
        | none => rw [Contain.evaluate, ht, hs] at h; cases h
        | some substring =>
          rw [Contain.evaluate, ht, hs] at h
          exact ⟨text, substring, rfl, rfl, h⟩
    · rintro ⟨text, substring, ht, hs, hc⟩
      rw [Contain.evaluate, ht, hs]
      exact hc
  · intro ht
    rw [Contain.evaluate, ht]
  · intro hs
    cases ht : to_option_str (c.text event) with
    | none => rw [Contain.evaluate, ht]
    | some text => rw [Contain.evaluate, ht, hs]

/-- C8 witness: concrete accessors exercising the success case and the
non-string failure case. -/
theorem contain_evaluate_spec_witness :
    (Contain.evaluate
        ⟨fun _ => some (Value.str "two or one"), fun _ => some (Value.str "one")⟩
        () = true)
  ∧ (Contain.evaluate
        ⟨fun _ => some (Value.num 3), fun _ => some (Value.str "one")⟩ () = false) := by
  constructor
  · exact (contain_evaluate_spec
      ⟨fun _ => some (Value.str "two or one"), fun _ => some (Value.str "one")⟩ ()).1.mpr
      ⟨"two or one", "one", rfl, rfl, by decide⟩
  · exact (contain_evaluate_spec
      ⟨fun _ => some (Value.num 3), fun _ => some (Value.str "one")⟩ ()).2.1 rfl

/-- `to_action` (`executor/foreach/src/lib.rs`): an entry of the
`actions` array is converted to an `Action` when it is an object with a
string `id` and an object `payload`; otherwise a `MissingArgumentError`
is produced (and the caller skips the entry). -/
def to_action (value : Value) : Except ExecutorError Action :=
  match value with
  | Value.obj action =>
    match action.lookup "id" with
    | some (Value.str id) =>
      match action.lookup "payload" with
      | some (Value.obj payload) => Except.ok ⟨id, payload⟩
      | _ => Except.error (ExecutorError.MissingArgumentError
          "ForEachExecutor - Not valid action format: Missing payload.")
    | _ => Except.error (ExecutorError.MissingArgumentError
        "ForEachExecutor - Not valid action format: Missing id.")
  | _ => Except.error (ExecutorError.MissingArgumentError
      "ForEachExecutor - Not valid action format")

mutual

/-- `resolve_payload` (`executor/foreach/src/lib.rs`): strings are run
through the template parser against the current item, arrays and
objects are resolved recursively, everything else is kept.
`bp` models `ParserBuilder::build_parser` from `tornado_common_parser`
(not among the sources): it yields either a build error or a parser,
and `parse_value` returning `none` keeps the original text. -/
def resolve_payload (bp : String → Except String (Value → Option Value)) (item : Value) :
    Value → Except ExecutorError Value
  | Value.str text =>
    match bp text with
    | Except.error err =>
      Except.error (ExecutorError.ActionExecutionError
        ("Cannot build parser for [" ++ text ++ "]. Err: " ++ err) false none)
    | Except.ok p =>
      match p item with
      | some v => Except.ok v
      | none => Except.ok (Value.str text)
  | Value.arr vs =>
    match resolve_payload_list bp item vs with
    | Except.ok vs' => Except.ok (Value.arr vs')
    | Except.error e => Except.error e
  | Value.obj fields =>
    match resolve_payload_fields bp item fields with
    | Except.ok fields' => Except.ok (Value.obj fields')
    | Except.error e => Except.error e
  | Value.null => Except.ok Value.null
  | Value.bool b => Except.ok (Value.bool b)
  | Value.num n => Except.ok (Value.num n)

/-- Element-wise resolution of an array payload. -/
def resolve_payload_list (bp : String → Except String (Value → Option Value))
    (item : Value) : List Value → Except ExecutorError (List Value)
  | [] => Except.ok []
  | v :: rest =>
    match resolve_payload bp item v with
    | Except.error e => Except.error e
    | Except.ok v' =>
      match resolve_payload_list bp item rest with
      | Except.error e => Except.error e
      | Except.ok rest' => Except.ok (v' :: rest')

/-- Value-wise resolution of an object payload; keys are kept. -/
def resolve_payload_fields (bp : String → Except String (Value → Option Value))
    (item : Value) : List (String × Value) → Except ExecutorError (List (String × Value))
  | [] => Except.ok []
  | (k, v) :: rest =>
    match resolve_payload bp item v with
    | Except.error e => Except.error e
    | Except.ok v' =>
      match resolve_payload_fields bp item rest with
      | Except.error e => Except.error e
      | Except.ok rest' => Except.ok ((k, v') :: rest')

end

/-- `resolve_action` (`executor/foreach/src/lib.rs`): resolve every
payload value of the action against the item; the first resolution
error aborts. -/
def resolve_action (bp : String → Except String (Value → Option Value))
    (item : Value) (action : Action) : Except ExecutorError Action :=
  match resolve_payload_fields bp item action.payload with
  | Except.ok payload' => Except.ok ⟨action.id, payload'⟩
  | Except.error e => Except.error e

/-- `ForEachExecutor::execute` (`executor/foreach/src/lib.rs`).  The
event bus is modelled by the returned list of published actions, in
publication order: for each convertible entry of `actions` (outer loop)
and each element of `target` (inner loop), the action resolved against
`{"item": element}` is published; a failing resolution is only logged
and skipped. -/
def ForEachExecutor.execute (bp : String → Except String (Value → Option Value))
    (action : Action) : Except ExecutorError (List Action) :=
  match action.payload.lookup "target" with
  | some (Value.arr values) =>
    match action.payload.lookup "actions" with
    | some (Value.arr rawActions) =>
      let actions := rawActions.filterMap (fun v => (to_action v).toOption)
      Except.ok (actions.flatMap (fun a =>
        values.filterMap (fun v =>
          (resolve_action bp (Value.obj [("item", v)]) a).toOption)))
    | _ => Except.error (ExecutorError.MissingArgumentError
        "ForEachExecutor - No [actions] key found in payload")
  | _ => Except.error (ExecutorError.MissingArgumentError
      "ForEachExecutor - No [target] key found in payload, or it is value is not an array")

/-- A `filterMap` through `Except.toOption` keeps every element whose
image is a success. -/
theorem filterMap_toOption_length {α β : Type} (f : α → Except ExecutorError β) :
    ∀ l : List α, (∀ x ∈ l, (f x).isOk = true) →
      (l.filterMap (fun x => (f x).toOption)).length = l.length := by
  intro l
  induction l with
  | nil => intro _; simp
  | cons a rest ih =>
    intro h
    have ha := h a (List.mem_cons_self a rest)
    cases hf : f a with
    | error e =>
      rw [hf] at ha
      simp [Except.isOk, Except.toBool] at ha
    | ok b =>
      have hsome : (f a).toOption = some b := by
        rw [hf]
        rfl
      rw [List.filterMap_cons, hsome, List.length_cons, List.length_cons,
        ih (fun x hx => h x (List.mem_cons_of_mem a hx))]

/-- Length of a `flatMap` whose pieces all have the same length. -/
theorem length_flatMap_const {α β : Type} (f : α → List β) (k : Nat) :
    ∀ l : List α, (∀ a ∈ l, (f a).length = k) →
      (l.flatMap f).length = l.length * k := by
  intro l
  induction l with
  | nil => intro _; simp
  | cons a rest ih =>
    intro h
    have := ih (fun x hx => h x (List.mem_cons_of_mem a hx))
    have ha := h a (List.mem_cons_self a rest)
    simp only [List.flatMap_cons, List.length_append, List.length_cons, this, ha]
    ring

/-- C10: `ForEachExecutor::execute` fails (with `MissingArgumentError`)
iff the payload lacks a `target` key holding an array or an `actions`
key holding an array; an `actions` entry converts to an action iff it is
an object with a string `id` and an object `payload` (other entries are
skipped); when both keys are present the call returns `Ok` and publishes,
for each convertible action and each target element, the action resolved
against that element, skipping failed resolutions — exactly one
publication per pair when every resolution succeeds. -/
theorem foreach_execute_spec (bp : String → Except String (Value → Option Value))
    (action : Action) :
    ((∃ msg, ForEachExecutor.execute bp action =
        Except.error (ExecutorError.MissingArgumentError msg)) ↔
      ((¬ ∃ vs, action.payload.lookup "target" = some (Value.arr vs)) ∨
       (¬ ∃ xs, action.payload.lookup "actions" = some (Value.arr xs))))
  ∧ (∀ vs xs,
      action.payload.lookup "target" = some (Value.arr vs) →
      action.payload.lookup "actions" = some (Value.arr xs) →
      ForEachExecutor.execute bp action =
        Except.ok ((xs.filterMap (fun v => (to_action v).toOption)).flatMap (fun a =>
          vs.filterMap (fun v =>
            (resolve_action bp (Value.obj [("item", v)]) a).toOption))))
  ∧ (∀ v : Value, (to_action v).isOk = true ↔
      ∃ fields id pl, v = Value.obj fields
        ∧ fields.lookup "id" = some (Value.str id)
        ∧ fields.lookup "payload" = some (Value.obj pl))
  ∧ (∀ vs xs,
      action.payload.lookup "target" = some (Value.arr vs) →
      action.payload.lookup "actions" = some (Value.arr xs) →
      (∀ a ∈ xs.filterMap (fun v => (to_action v).toOption), ∀ v ∈ vs,
        (resolve_action bp (Value.obj [("item", v)]) a).isOk = true) →
      ∃ out, ForEachExecutor.execute bp action = Except.ok out
        ∧ out.length =
            (xs.filterMap (fun v => (to_action v).toOption)).length * vs.length) := by
  have hok : ∀ vs xs,
      action.payload.lookup "target" = some (Value.arr vs) →
      action.payload.lookup "actions" = some (Value.arr xs) →
      ForEachExecutor.execute bp action =
        Except.ok ((xs.filterMap (fun v => (to_action v).toOption)).flatMap (fun a =>
          vs.filterMap (fun v =>
            (resolve_action bp (Value.obj [("item", v)]) a).toOption))) := by
    intro vs xs htg hac
    simp only [ForEachExecutor.execute, htg, hac]
  have herrT : (¬ ∃ vs, action.payload.lookup "target" = some (Value.arr vs)) →
      ForEachExecutor.execute bp action = Except.error (ExecutorError.MissingArgumentError
        "ForEachExecutor - No [target] key found in payload, or it is value is not an array") := by
    intro hT
    cases htg : action.payload.lookup "target" with
    | none => simp [ForEachExecutor.execute, htg]
    | some v =>
      cases v with
      | arr vs => exact absurd ⟨vs, htg⟩ hT
      | null => simp [ForEachExecutor.execute, htg]
      | bool b => simp [ForEachExecutor.execute, htg]
      | num n => simp [ForEachExecutor.execute, htg]
      | str s => simp [ForEachExecutor.execute, htg]
      | obj fields => simp [ForEachExecutor.execute, htg]
  have herrA : ∀ vs, action.payload.lookup "target" = some (Value.arr vs) →
      (¬ ∃ xs, action.payload.lookup "actions" = some (Value.arr xs)) →
      ForEachExecutor.execute bp action = Except.error (ExecutorError.MissingArgumentError
        "ForEachExecutor - No [actions] key found in payload") := by
    intro vs htg hA
    cases hac : action.payload.lookup "actions" with
    | none => simp [ForEachExecutor.execute, htg, hac]
    | some v =>
      cases v with
      | arr xs => exact absurd ⟨xs, hac⟩ hA
      | null => simp [ForEachExecutor.execute, htg, hac]
      | bool b => simp [ForEachExecutor.execute, htg, hac]
      | num n => simp [ForEachExecutor.execute, htg, hac]
      | str s => simp [ForEachExecutor.execute, htg, hac]
      | obj fields => simp [ForEachExecutor.execute, htg, hac]
  refine ⟨⟨?_, ?_⟩, hok, ?_, ?_⟩
  · rintro ⟨msg, herr⟩
    by_cases hT : ∃ vs, action.payload.lookup "target" = some (Value.arr vs)
    · by_cases hA : ∃ xs, action.payload.lookup "actions" = some (Value.arr xs)
      · obtain ⟨vs, htg⟩ := hT
        obtain ⟨xs, hac⟩ := hA
        rw [hok vs xs htg hac] at herr
        cases herr
      · exact Or.inr hA
    · exact Or.inl hT
  · intro h
    by_cases hT : ∃ vs, action.payload.lookup "target" = some (Value.arr vs)
    · rcases h with h | hA
      · exact absurd hT h
      · obtain ⟨vs, htg⟩ := hT
        exact ⟨_, herrA vs htg hA⟩
    · exact ⟨_, herrT hT⟩
  · intro v
    constructor
    · intro h
      cases v with
      | obj fields =>
        cases hid : fields.lookup "id" with
        | none => rw [to_action] at h; rw [hid] at h; simp [Except.isOk, Except.toBool] at h
        | some idv =>
          cases idv with
          | str id =>
            cases hpl : fields.lookup "payload" with
            | none =>
              rw [to_action] at h; rw [hid, hpl] at h
              simp [Except.isOk, Except.toBool] at h
            | some plv =>
              cases plv with
              | obj pl => exact ⟨fields, id, pl, rfl, hid, hpl⟩
              | null =>
                rw [to_action] at h; rw [hid, hpl] at h
                simp [Except.isOk, Except.toBool] at h
              | bool b =>
                rw [to_action] at h; rw [hid, hpl] at h
                simp [Except.isOk, Except.toBool] at h
              | num n =>
                rw [to_action] at h; rw [hid, hpl] at h
                simp [Except.isOk, Except.toBool] at h
              | str s =>
                rw [to_action] at h; rw [hid, hpl] at h
                simp [Except.isOk, Except.toBool] at h
              | arr vs =>
                rw [to_action] at h; rw [hid, hpl] at h
                simp [Except.isOk, Except.toBool] at h
          | null => rw [to_action] at h; rw [hid] at h; simp [Except.isOk, Except.toBool] at h
          | bool b => rw [to_action] at h; rw [hid] at h; simp [Except.isOk, Except.toBool] at h
          | num n => rw [to_action] at h; rw [hid] at h; simp [Except.isOk, Except.toBool] at h
          | arr vs => rw [to_action] at h; rw [hid] at h; simp [Except.isOk, Except.toBool] at h
          | obj o => rw [to_action] at h; rw [hid] at h; simp [Except.isOk, Except.toBool] at h
      | null => simp [to_action, Except.isOk, Except.toBool] at h
      | bool b => simp [to_action, Except.isOk, Except.toBool] at h
      | num n => simp [to_action, Except.isOk, Except.toBool] at h
      | str s => simp [to_action, Except.isOk, Except.toBool] at h
      | arr vs => simp [to_action, Except.isOk, Except.toBool] at h
    · rintro ⟨fields, id, pl, rfl, hid, hpl⟩
      rw [to_action]
      rw [hid, hpl]
      rfl
  · intro vs xs htg hac hall
    refine ⟨_, hok vs xs htg hac, ?_⟩
    refine length_flatMap_const _ vs.length _ ?_
    intro a ha
    exact filterMap_toOption_length
      (fun v => resolve_action bp (Value.obj [("item", v)]) a) vs (hall a ha)

/-- C10 witness: a concrete payload with one target element and one
valid action entry produces exactly one published action and `Ok`. -/
theorem foreach_execute_spec_witness :
    ForEachExecutor.execute (fun _ => Except.ok (fun _ => none))
      ⟨"foreach",
        [("target", Value.arr [Value.str "first_item"]),
         ("actions", Value.arr
           [Value.obj [("id", Value.str "id_one"), ("payload", Value.obj [])]])]⟩ =
      Except.ok
        (([Value.obj [("id", Value.str "id_one"),
            ("payload", Value.obj [])]].filterMap (fun v => (to_action v).toOption)).flatMap
          (fun a => [Value.str "first_item"].filterMap (fun v =>
            (resolve_action (fun _ => Except.ok (fun _ => none))
              (Value.obj [("item", v)]) a).toOption))) :=
  (foreach_execute_spec (fun _ => Except.ok (fun _ => none))
      ⟨"foreach",
        [("target", Value.arr [Value.str "first_item"]),
         ("actions", Value.arr
           [Value.obj [("id", Value.str "id_one"), ("payload", Value.obj [])]])]⟩).2.1
    [Value.str "first_item"]
    [Value.obj [("id", Value.str "id_one"), ("payload", Value.obj [])]]
    rfl rfl

/-! Matcher evaluation pipeline.  `Matcher::process` itself is not among
the sources (only its `MatcherActor` wrapper is), so this part is
modelled from the spec, §4.4: a depth-first walk of the compiled
configuration tree in which every fallible sub-evaluation is recorded
as a status inside the resulting `ProcessedEvent` tree. -/

/-- Extracted variables accumulated during the evaluation of one rule. -/
abbrev Vars := List (String × Value)

/-- Modelled from the spec (§3, §4.2): a compiled boolean operator over
an event of abstract type `ε` and the extracted variables.  `and`, `or`
and `not` are kept structural (they short-circuit left to right); leaf
comparisons (equal, contains, regex, ...) are compiled into total
boolean predicates, as §4.2 states that operator evaluation never
fails. -/
inductive Operator (ε : Type) where
  | and (operators : List (Operator ε)) : Operator ε
  | or (operators : List (Operator ε)) : Operator ε
  | not (operator : Operator ε) : Operator ε
  | leaf (eval : ε → Vars → Bool) : Operator ε

mutual

/-- Modelled from the spec (§4.2): operator evaluation, total. -/
def Operator.eval {ε : Type} : Operator ε → ε → Vars → Bool
  | Operator.leaf f, e, vars => f e vars
  | Operator.not op, e, vars => ! op.eval e vars
  | Operator.and ops, e, vars => Operator.evalAll ops e vars
  | Operator.or ops, e, vars => Operator.evalAny ops e vars

/-- Short-circuiting conjunction of a list of operators. -/
def Operator.evalAll {ε : Type} : List (Operator ε) → ε → Vars → Bool
  | [], _, _ => true
  | op :: rest, e, vars => op.eval e vars && Operator.evalAll rest e vars

/-- Short-circuiting disjunction of a list of operators. -/
def Operator.evalAny {ε : Type} : List (Operator ε) → ε → Vars → Bool
  | [], _, _ => false
  | op :: rest, e, vars => op.eval e vars || Operator.evalAny rest e vars

end

/-- Modelled from the spec (§4.3): a compiled extractor yields a value
or signals `NoMatch` (here `none`); the regex machinery is abstracted
into the function. -/
structure Extractor (ε : Type) where
  extract : ε → Vars → Option Value

/-- Modelled from the spec (§4.4): a compiled action template; its
payload resolution against the event and the extracted variables is
total. -/
structure ActionTemplate (ε : Type) where
  id : String
  resolve : ε → Vars → Value

/-- Modelled from the spec (§3, §4.4): a compiled rule of a ruleset
(inactive rules are skipped at compile time and do not appear). -/
structure CompiledRule (ε : Type) where
  name : String
  do_continue : Bool
  where_operator : Option (Operator ε)
  with_extractors : List (String × Extractor ε)
  actions : List (ActionTemplate ε)

/-- Modelled from the spec (§3): the compiled configuration tree —
interior `filter` nodes with named children, `ruleset` leaves. -/
inductive MatcherConfig (ε : Type) where
  | filter (name : String) (filter_operator : Option (Operator ε))
      (nodes : List (String × MatcherConfig ε)) : MatcherConfig ε
  | ruleset (name : String) (rules : List (CompiledRule ε)) : MatcherConfig ε

/-- An action produced by a matched rule. -/
structure ResolvedAction where
  id : String
  payload : Value

/-- Modelled from the spec (§3): the per-rule outcome recorded in a
`ProcessedEvent`; evaluation failures (`NoMatch` of an extractor) appear
as the `PartiallyMatched` status, never as an error. -/
inductive RuleStatus where
  | NotProcessed : RuleStatus
  | NotMatched : RuleStatus
  | PartiallyMatched (failed_extractor : String) : RuleStatus
  | Matched (extracted_vars : Vars) (actions : List ResolvedAction) : RuleStatus

/-- Status of a filter node. -/
inductive ProcessedFilterStatus where
  | Matched : ProcessedFilterStatus
  | NotMatched : ProcessedFilterStatus

/-- Modelled from the spec (§3): the result tree of processing one
event, isomorphic to the configuration tree, each node carrying a
status. -/
inductive ProcessedNode where
  | filter (name : String) (status : ProcessedFilterStatus)
      (nodes : List (String × ProcessedNode)) : ProcessedNode
  | ruleset (name : String) (rules : List (String × RuleStatus)) : ProcessedNode

/-- Whether the (optional) where operator of a rule matches. -/
def whereMatches {ε : Type} (e : ε) (r : CompiledRule ε) : Bool :=
  match r.where_operator with
  | some op => op.eval e []
  | none => true

/-- Modelled from the spec (§4.4): run the extractors in insertion
order, each one seeing the variables bound by the previous ones; the
first `NoMatch` aborts with the name of the failing extractor. -/
def runExtractors {ε : Type} (e : ε) :
    List (String × Extractor ε) → Vars → Except String Vars
  | [], vars => Except.ok vars
  | (n, ex) :: rest, vars =>
    match ex.extract e vars with
    | some v => runExtractors e rest (vars ++ [(n, v)])
    | none => Except.error n

/-- Modelled from the spec (§4.4): evaluate one rule — where operator,
then extractors, then action resolution; every failure becomes a
status. -/
def evalRule {ε : Type} (e : ε) (r : CompiledRule ε) : RuleStatus :=
  if whereMatches e r then
    match runExtractors e r.with_extractors [] with
    | Except.error n => RuleStatus.PartiallyMatched n
    | Except.ok vars =>
      RuleStatus.Matched vars
        (r.actions.map (fun a => ⟨a.id, a.resolve e vars⟩))
  else
    RuleStatus.NotMatched

/-- Modelled from the spec (§4.4): evaluate the rules of a ruleset in
order; after a matched rule with `do_continue = false` the remaining
rules are recorded as `NotProcessed`. -/
def processRules {ε : Type} (e : ε) :
    List (CompiledRule ε) → Bool → List (String × RuleStatus)
  | [], _ => []
  | r :: rest, stopped =>
    if stopped then
      (r.name, RuleStatus.NotProcessed) :: processRules e rest true
    else
      let status := evalRule e r
      let stop :=
        match status with
        | RuleStatus.Matched _ _ => ! r.do_continue
        | _ => false
      (r.name, status) :: processRules e rest stop

mutual

/-- Modelled from the spec (§4.4): depth-first processing of the
configuration tree; a false filter stops the descent and records the
whole subtree as not processed. -/
def processNode {ε : Type} (e : ε) : MatcherConfig ε → ProcessedNode
  | MatcherConfig.ruleset name rules =>
    ProcessedNode.ruleset name (processRules e rules false)
  | MatcherConfig.filter name filter_operator nodes =>
    match filter_operator with
    | some op =>
      if op.eval e [] then
        ProcessedNode.filter name ProcessedFilterStatus.Matched (processChildren e nodes)
      else
        ProcessedNode.filter name ProcessedFilterStatus.NotMatched
          (notProcessedChildren nodes)
    | none =>
      ProcessedNode.filter name ProcessedFilterStatus.Matched (processChildren e nodes)

/-- Process the named children of a filter node, in order. -/
def processChildren {ε : Type} (e : ε) :
    List (String × MatcherConfig ε) → List (String × ProcessedNode)
  | [] => []
  | (n, c) :: rest => (n, processNode e c) :: processChildren e rest

/-- The subtree of a node whose ancestor filter did not match: every
rule is `NotProcessed`. -/
def notProcessedNode {ε : Type} : MatcherConfig ε → ProcessedNode
  | MatcherConfig.ruleset name rules =>
    ProcessedNode.ruleset name (rules.map (fun r => (r.name, RuleStatus.NotProcessed)))
  | MatcherConfig.filter name _ nodes =>
    ProcessedNode.filter name ProcessedFilterStatus.NotMatched (notProcessedChildren nodes)

/-- Not-processed marking of a list of named children. -/
def notProcessedChildren {ε : Type} :
    List (String × MatcherConfig ε) → List (String × ProcessedNode)
  | [] => []
  | (n, c) :: rest => (n, notProcessedNode c) :: notProcessedChildren rest

end

/-- The shape of a (processed) configuration tree: node names, child
lists and per-ruleset rule names. -/
inductive Shape where
  | filter (name : String) (nodes : List (String × Shape)) : Shape
  | ruleset (name : String) (rule_names : List String) : Shape

mutual

/-- Shape of a configuration tree. -/
def MatcherConfig.shape {ε : Type} : MatcherConfig ε → Shape
  | MatcherConfig.filter name _ nodes => Shape.filter name (MatcherConfig.shapeChildren nodes)
  | MatcherConfig.ruleset name rules => Shape.ruleset name (rules.map (fun r => r.name))

/-- Shape of a list of named configuration children. -/
def MatcherConfig.shapeChildren {ε : Type} :
    List (String × MatcherConfig ε) → List (String × Shape)
  | [] => []
  | (n, c) :: rest => (n, MatcherConfig.shape c) :: MatcherConfig.shapeChildren rest

end

mutual

/-- Shape of a processed tree. -/
def ProcessedNode.shape : ProcessedNode → Shape
  | ProcessedNode.filter name _ nodes => Shape.filter name (ProcessedNode.shapeChildren nodes)
  | ProcessedNode.ruleset name rules => Shape.ruleset name (rules.map (fun p => p.1))

/-- Shape of a list of named processed children. -/
def ProcessedNode.shapeChildren :
    List (String × ProcessedNode) → List (String × Shape)
  | [] => []
  | (n, c) :: rest => (n, ProcessedNode.shape c) :: ProcessedNode.shapeChildren rest

end

/-- Processing a ruleset records one status per rule, under each rule's
name and in configuration order. -/
theorem processRules_names {ε : Type} (e : ε) :
    ∀ (rules : List (CompiledRule ε)) (stopped : Bool),
      (processRules e rules stopped).map (fun p => p.1) = rules.map (fun r => r.name) := by
  intro rules
  induction rules with
  | nil => intro stopped; rfl
  | cons r rest ih =>
    intro stopped
    cases stopped with
    | true => simp [processRules, ih]
    | false => simp [processRules, ih]

mutual

/-- Processing preserves the shape of the configuration tree. -/
theorem processNode_shape {ε : Type} (e : ε) (c : MatcherConfig ε) :
    (processNode e c).shape = c.shape := by
  cases c with
  | ruleset name rules =>
    simp only [processNode, ProcessedNode.shape, MatcherConfig.shape]
    rw [processRules_names]
  | filter name filter_operator nodes =>
    cases filter_operator with
    | none =>
      simp only [processNode, ProcessedNode.shape, MatcherConfig.shape]
      rw [processChildren_shape e nodes]
    | some op =>
      simp only [processNode, MatcherConfig.shape]
      by_cases hop : op.eval e [] = true
      · rw [if_pos hop]
        simp only [ProcessedNode.shape]
        rw [processChildren_shape e nodes]
      · rw [if_neg hop]
        simp only [ProcessedNode.shape]
        rw [notProcessedChildren_shape nodes]

/-- Processing preserves the shape of named children lists. -/
theorem processChildren_shape {ε : Type} (e : ε)
    (l : List (String × MatcherConfig ε)) :
    ProcessedNode.shapeChildren (processChildren e l) = MatcherConfig.shapeChildren l := by
  cases l with
  | nil => rfl
  | cons p rest =>
    simp only [processChildren, ProcessedNode.shapeChildren, MatcherConfig.shapeChildren]
    rw [processNode_shape e p.2, processChildren_shape e rest]

/-- The not-processed marking preserves the shape. -/
theorem notProcessedNode_shape {ε : Type} (c : MatcherConfig ε) :
    (notProcessedNode c).shape = c.shape := by
  cases c with
  | ruleset name rules =>
    simp only [notProcessedNode, ProcessedNode.shape, MatcherConfig.shape, List.map_map]
    rfl
  | filter name filter_operator nodes =>
    simp only [notProcessedNode, ProcessedNode.shape, MatcherConfig.shape]
    rw [notProcessedChildren_shape nodes]

/-- The not-processed marking preserves the shape of children lists. -/
theorem notProcessedChildren_shape {ε : Type}
    (l : List (String × MatcherConfig ε)) :
    ProcessedNode.shapeChildren (notProcessedChildren l) = MatcherConfig.shapeChildren l := by
  cases l with
  | nil => rfl
  | cons p rest =>
    simp only [notProcessedChildren, ProcessedNode.shapeChildren, MatcherConfig.shapeChildren]
    rw [notProcessedNode_shape p.2, notProcessedChildren_shape rest]

end

/-- `MatcherActor::process` (`actor/matcher.rs`): delegates to
`Matcher::process` on the held compiled tree (metrics recording and the
`include_metadata` diagnostic flag are omitted — the latter only
controls the diagnostic trace, not the statuses). -/
def MatcherActor.process {ε : Type} (e : ε) (c : MatcherConfig ε) : ProcessedNode :=
  processNode e c

/-- C1: per-event processing is total: for every compiled configuration
and every event, `MatcherActor::process` returns a complete
`ProcessedEvent` — a status tree of exactly the shape of the
configuration, with one status per node and per rule — and an extractor
failure during rule evaluation is recorded as a `PartiallyMatched`
status inside that tree instead of surfacing as an error. -/
theorem matcher_process_total {ε : Type} (e : ε) (c : MatcherConfig ε) :
    (MatcherActor.process e c).shape = c.shape
  ∧ (∀ (r : CompiledRule ε) (n : String),
      whereMatches e r = true →
      runExtractors e r.with_extractors [] = Except.error n →
      evalRule e r = RuleStatus.PartiallyMatched n) := by
  refine ⟨processNode_shape e c, ?_⟩
  intro r n hw hx
  rw [evalRule, if_pos hw, hx]

/-- A rule whose single extractor never matches. -/
def demoFailingRule : CompiledRule Unit :=
  { name := "r1", do_continue := true, where_operator := none,
    with_extractors := [("x", ⟨fun _ _ => none⟩)], actions := [] }

/-- A small configuration tree holding `demoFailingRule`. -/
def demoConfig : MatcherConfig Unit :=
  MatcherConfig.filter "root" none
    [("set", MatcherConfig.ruleset "set" [demoFailingRule])]

/-- C1 witness: processing the demo configuration yields a tree of the
same shape, and the failing extractor of the demo rule is recorded as a
`PartiallyMatched` status. -/
theorem matcher_process_total_witness :
    (MatcherActor.process () demoConfig).shape = demoConfig.shape
  ∧ evalRule () demoFailingRule = RuleStatus.PartiallyMatched "x" :=
  ⟨(matcher_process_total () demoConfig).1,
   (matcher_process_total () demoConfig).2 demoFailingRule "x" rfl rfl⟩

end Tornado
